import Mathlib

/-!
# Parallel range downloader (`kadai3-2/kimuson13/download`)

A shallow embedding of `download.go` and a verification of its range
planning, probing, fetching and merging code.

Conventions of the embedding.

* Go `int` is the 64-bit two's complement integer of the usual targets
  (amd64, arm64).  Values are carried as `Int`; every arithmetic operation of
  the source wraps its mathematical result back into the 64-bit interval with
  `wrapInt`.  `InInt x` says that `x` is a value an `int` variable can hold.
* Errors are values of `Err`; a Go `error` result is an `Option Err`, `none`
  standing for `nil`.
* The file system, and the log of HTTP requests sent, are an explicit
  `State` threaded through the functions.  The network is a `World`, a
  function from requests to responses.
-/

set_option linter.unusedVariables false

namespace download

/-! ## Machine integers -/

/-- Two's complement wrap-around of a mathematical integer into 64 bits. -/
def wrapInt (x : Int) : Int := (x + 2 ^ 63) % 2 ^ 64 - 2 ^ 63

/-- The values of a Go `int` (64 bits). -/
def InInt (x : Int) : Prop := -(2 ^ 63) ≤ x ∧ x < 2 ^ 63

instance (x : Int) : Decidable (InInt x) := by unfold InInt; infer_instance

/-- Go `a * b` on `int`. -/
def goMul (a b : Int) : Int := wrapInt (a * b)

/-- Go `a + b` on `int`. -/
def goAdd (a b : Int) : Int := wrapInt (a + b)

/-- Go `a - b` on `int`. -/
def goSub (a b : Int) : Int := wrapInt (a - b)

/-- Go `a / b` on `int` for `b ≠ 0`: the quotient truncated toward zero
(the caller handles the run-time panic of `b = 0`). -/
def goDiv (a b : Int) : Int := wrapInt (Int.tdiv a b)

/-! ## `Range` and `MakeRange` -/

/-- The source's `type Range struct { low, high, number int }`. -/
structure Range where
  low : Int
  high : Int
  number : Int
  deriving DecidableEq, Repr

/-- The source's
```go
func MakeRange(i, split, parallel, contentLength int) Range {
	low := split * i
	high := low + split - 1
	if i == parallel-1 {
		high = contentLength
	}
	return Range{low: low, high: high, number: i}
}
```
-/
def MakeRange (i split parallel contentLength : Int) : Range :=
  let low := goMul split i
  let high := goSub (goAdd low split) 1
  let high := if i = goSub parallel 1 then contentLength else high
  { low := low, high := high, number := i }

/-- The values the loop variable of `for i := 0; i < parallel; i++` takes,
in order. -/
def loopIndices (parallel : Int) : List Int :=
  (List.range parallel.toNat).map Int.ofNat

/-- The ranges planned by `Download(url, contentLength, parallel, ctx)`:
`split := contentLength / parallel`, then `MakeRange(i, split, parallel,
contentLength)` for each loop index. -/
def plannedRanges (contentLength parallel : Int) : List Range :=
  (loopIndices parallel).map
    (fun i => MakeRange i (goDiv contentLength parallel) parallel contentLength)

/-- Number of bytes of an inclusive range `[low, high]`. -/
def Range.length (r : Range) : Int := r.high - r.low + 1

/-- The `len` consecutive offsets `a, a + 1, ...`. -/
def offsetsFrom (a : Int) (len : Nat) : List Int :=
  (List.range len).map (fun k => a + Int.ofNat k)

/-- The byte offsets of an inclusive range `[low, high]`, in order. -/
def Range.offsets (r : Range) : List Int :=
  offsetsFrom r.low (r.high - r.low + 1).toNat

/-- The byte offsets `0, 1, ..., n - 1` of a resource of `n` bytes. -/
def resourceOffsets (n : Int) : List Int :=
  offsetsFrom 0 n.toNat

/-! ## Errors, files and the network -/

/-- A byte of a file or of a response body. -/
abbrev Byte := UInt8

/-- Go `error` values that the program creates or receives. -/
inductive Err where
  /-- An error made by `errors.New(msg)` or `fmt.Errorf`, with its text. -/
  | text (msg : String)
  /-- An `*fs.PathError` of package `os`: operation, path, cause. -/
  | path (op : String) (name : String) (cause : String)
  /-- An error of `net/http`: request construction, transport, body read. -/
  | transport (msg : String)
  deriving DecidableEq, Repr

/-- An `http.Header`: canonical key to list of values. -/
abbrev Header := List (String × List String)

/-- An `http.Request` as far as the program sets it up. -/
structure Request where
  Method : String
  URL : String
  Header : Header
  deriving DecidableEq, Repr

/-- An `http.Response` as far as the program reads it.  `Body` are the bytes
that reading `res.Body` delivers; `BodyErr` is the error that ends the read,
`none` for a clean end of stream. -/
structure Response where
  StatusCode : Int
  Header : Header
  ContentLength : Int
  Body : List Byte
  BodyErr : Option Err
  deriving DecidableEq, Repr

/-- The environment outside the process: `runtime.NumCPU()`, whether
`http.NewRequest(method, url, nil)` fails, and what `http.DefaultClient.Do`
answers to a request. -/
structure World where
  NumCPU : Int
  NewRequest : String → String → Option Err
  Do : Request → Except Err Response

/-- The mutable state the program acts on: the directories and regular files
of the working directory (path to content), the paths on which the operating
system refuses `os` calls (permissions, quota), and the log of HTTP requests
sent so far. -/
structure State where
  dirs : List String
  files : List (String × List Byte)
  denied : List String
  sent : List Request
  deriving DecidableEq, Repr

/-- An open `*os.File`: its name and whether the descriptor admits writes. -/
structure Handle where
  name : String
  writable : Bool
  deriving DecidableEq, Repr

/-- How a call ends: it returns its `error` result, or the goroutine panics. -/
inductive Outcome where
  | returned (err : Option Err)
  | panicked (msg : String)
  deriving DecidableEq, Repr

/-- The constant `http.StatusPartialContent`. -/
def StatusPartialContent : Int := 206

/-- Go `h.Get(key)`: the first value stored under `key`, or `""`. -/
def Header.Get : Header → String → String
  | [], _ => ""
  | (k, vs) :: rest, key =>
    if k = key then vs.headD "" else Header.Get rest key

/-- Content of the regular file `name`, if there is one. -/
def lookupFile : List (String × List Byte) → String → Option (List Byte)
  | [], _ => none
  | (k, v) :: rest, name => if k = name then some v else lookupFile rest name

/-- Set the content of the regular file `name`, creating it when missing. -/
def storeFile : List (String × List Byte) → String → List Byte →
    List (String × List Byte)
  | [], name, data => [(name, data)]
  | (k, v) :: rest, name, data =>
    if k = name then (k, data) :: rest else (k, v) :: storeFile rest name data

/-- Whether the character list `p` begins with `q`. -/
def startsWith : List Char → List Char → Bool
  | [], _ => true
  | _ :: _, [] => false
  | a :: q, b :: p => decide (a = b) && startsWith q p

/-- Whether `name` is `root` itself or a path below the directory `root`. -/
def inTree (root name : String) : Bool :=
  decide (name = root) || startsWith (root.data ++ ['/']) name.data

/-- Go `os.Mkdir(name, 0755)`: fails when the path exists already or is
refused. -/
def osMkdir (st : State) (name : String) : Except Err State :=
  if name ∈ st.denied then .error (Err.path "mkdir" name "permission denied")
  else if name ∈ st.dirs ∨ (lookupFile st.files name).isSome then
    .error (Err.path "mkdir" name "file exists")
  else .ok { st with dirs := st.dirs ++ [name] }

/-- Go `os.Create(name)`: creates the regular file or truncates it, and opens
it for reading and writing.  The program calls it only where the parent
directory exists (the working directory, or `tempdir` right after
`os.Mkdir`). -/
def osCreate (st : State) (name : String) : Except Err (Handle × State) :=
  if name ∈ st.denied then .error (Err.path "open" name "permission denied")
  else if name ∈ st.dirs then .error (Err.path "open" name "is a directory")
  else .ok ({ name := name, writable := true },
            { st with files := storeFile st.files name [] })

/-- Go `os.Open(name)`: opens the named file for reading; the descriptor has mode
`O_RDONLY`. -/
def osOpen (st : State) (name : String) : Except Err Handle :=
  if name ∈ st.denied then .error (Err.path "open" name "permission denied")
  else if name ∈ st.dirs ∨ (lookupFile st.files name).isSome then
    .ok { name := name, writable := false }
  else .error (Err.path "open" name "no such file or directory")

/-- Go `os.RemoveAll(name)`: removes the path and everything below it; a missing
path is not an error. -/
def osRemoveAll (st : State) (name : String) : Except Err State :=
  if name ∈ st.denied then .error (Err.path "unlinkat" name "permission denied")
  else .ok { dirs := st.dirs.filter (fun d => !inTree name d),
             files := st.files.filter (fun f => !inTree name f.1),
             denied := st.denied, sent := st.sent }

/-- Go `f.Write(data)` at the end of the file: a descriptor opened read-only
refuses it. -/
def writeFile (st : State) (h : Handle) (data : List Byte) : Except Err State :=
  if h.writable then
    let old := (lookupFile st.files h.name).getD []
    .ok { st with files := storeFile st.files h.name (old ++ data) }
  else .error (Err.path "write" h.name "bad file descriptor")

/-- Reading an open file to its end; a directory cannot be read. -/
def readAll (st : State) (h : Handle) : Except Err (List Byte) :=
  match lookupFile st.files h.name with
  | some data => .ok data
  | none => .error (Err.path "read" h.name "is a directory")

/-- Go `io.Copy(dst, src)` where reading `src` delivers the bytes `src` and then
ends with `srcErr`.  The bytes read are written to `dst`; with nothing read,
nothing is written.  Returns the first error met. -/
def ioCopy (st : State) (dst : Handle) (src : List Byte) (srcErr : Option Err) :
    Option Err × State :=
  if src = [] then (srcErr, st)
  else
    match writeFile st dst src with
    | .error err => (some err, st)
    | .ok st1 => (srcErr, st1)

/-- The string `fmt.Sprintf("tempdir/tempfile.%d.%d", a, b)`. -/
def tempfileName (a b : Int) : String :=
  "tempdir/tempfile." ++ toString a ++ "." ++ toString b

/-- The string `fmt.Sprintf("bytes=%d-%d", a, b)`. -/
def rangeHeader (a b : Int) : String :=
  "bytes=" ++ toString a ++ "-" ++ toString b

/-- The state after one more request was handed to the HTTP client. -/
def State.send (st : State) (req : Request) : State :=
  { st with sent := st.sent ++ [req] }

/-- The request `http.NewRequest("HEAD", url, nil)`. -/
def headRequest (url : String) : Request :=
  { Method := "HEAD", URL := url, Header := [] }

/-- The request `http.NewRequest("GET", url, nil)` after
`req.Header.Set("Range", fmt.Sprintf("bytes=%d-%d", r.low, r.high))`. -/
def rangeRequest (url : String) (r : Range) : Request :=
  { Method := "GET", URL := url, Header := [("Range", [rangeHeader r.low r.high])] }

/-! ## The functions of `download.go` -/

/-- The source's `checkContentLength(url, ctx)`: a `HEAD` request, then the
checks of `Accept-Ranges` and of the content length.  `int(res.ContentLength)`
converts an `int64` to `int`. -/
def checkContentLength (w : World) (st : State) (url : String) :
    (Int × Option Err) × State :=
  match w.NewRequest "HEAD" url with
  | some err => ((0, some err), st)
  | none =>
    let req := headRequest url
    let st1 := st.send req
    match w.Do req with
    | .error err => ((0, some err), st1)
    | .ok res =>
      let acceptRange := res.Header.Get "Accept-Ranges"
      if acceptRange = "" then
        ((0, some (Err.text "Accept-Range is not bytes")), st1)
      else if acceptRange ≠ "bytes" then
        ((0, some (Err.text "it is not content")), st1)
      else
        let contentLength := wrapInt res.ContentLength
        if contentLength < 1 then
          ((0, some (Err.text "it does not have Content-Length")), st1)
        else ((contentLength, none), st1)

/-- The source's `Requests(r, url, filename)`: a `GET` with a `Range` header,
the status check, then `os.Open(filename)` and `io.Copy(output, res.Body)`. -/
def Requests (w : World) (st : State) (r : Range) (url filename : String) :
    Option Err × State :=
  match w.NewRequest "GET" url with
  | some err => (some err, st)
  | none =>
    let req := rangeRequest url r
    let st1 := st.send req
    match w.Do req with
    | .error err => (some err, st1)
    | .ok res =>
      if res.StatusCode ≠ StatusPartialContent then
        (some (Err.text ("unexpected status code: " ++ toString res.StatusCode)), st1)
      else
        match osOpen st1 filename with
        | .error err => (some err, st1)
        | .ok output => ioCopy st1 output res.Body res.BodyErr

/-- Error slot of an `errgroup.Group`: the first non-nil error is kept. -/
def firstErr (slot new : Option Err) : Option Err :=
  match slot with
  | some e => some e
  | none => new

/-- The loop of `Download` over the remaining indices, followed by
`grp.Wait()`.  `grpErr` is the error slot of the errgroup.  The task handed to
`grp.Go` is run at the point where it is started: the tasks write to pairwise
different staging files and the answers of the network do not depend on the
order of the requests, so the schedule changes neither the final state nor
whether an error is reported. -/
def DownloadLoop (w : World) (url : String) (split parallel contentLength : Int) :
    List Int → State → Option Err → Outcome × State
  | [], st, grpErr => (Outcome.returned grpErr, st)
  | i :: rest, st, grpErr =>
    let r := MakeRange i split parallel contentLength
    let tempfile := tempfileName parallel r.number
    match osCreate st tempfile with
    | .error err => (Outcome.returned (some err), st)
    | .ok (file, st1) =>
      let filename := file.name
      let res := Requests w st1 r url filename
      DownloadLoop w url split parallel contentLength rest res.2 (firstErr grpErr res.1)

/-- The source's `Download(url, contentLength, parallel, ctx)`: `os.Mkdir`,
`split := contentLength / parallel` (a run-time panic for `parallel = 0`), the
loop, `grp.Wait()`. -/
def Download (w : World) (st : State) (url : String) (contentLength parallel : Int) :
    Outcome × State :=
  match osMkdir st "tempdir" with
  | .error err => (Outcome.returned (some err), st)
  | .ok st1 =>
    if parallel = 0 then
      (Outcome.panicked "runtime error: integer divide by zero", st1)
    else
      let split := goDiv contentLength parallel
      DownloadLoop w url split parallel contentLength (loopIndices parallel) st1 none

/-- The loop of `MergeFile` over the remaining indices: open the staging
file, copy it to the end of `fh`. -/
def MergeLoop (parallel : Int) (fh : Handle) : List Int → State → Option Err × State
  | [], st => (none, st)
  | i :: rest, st =>
    let n := tempfileName parallel i
    match osOpen st n with
    | .error err => (some err, st)
    | .ok sub =>
      match readAll st sub with
      | .error err => (some err, st)
      | .ok data =>
        match ioCopy st fh data none with
        | (some err, st1) => (some err, st1)
        | (none, st1) => MergeLoop parallel fh rest st1

/-- The source's `MergeFile(parallel, contentLength)`: create the output file
`paralleldownload`, append the staging files in index order, remove
`tempdir`. -/
def MergeFile (st : State) (parallel contentLength : Int) : Option Err × State :=
  let filename := "paralleldownload"
  match osCreate st filename with
  | .error err => (some err, st)
  | .ok (fh, st1) =>
    match MergeLoop parallel fh (loopIndices parallel) st1 with
    | (some err, st2) => (some err, st2)
    | (none, st2) =>
      match osRemoveAll st2 "tempdir" with
      | .error err => (some err, st2)
      | .ok st3 => (none, st3)

/-- The source's `Run(url, ctx)`: probe, download, merge, each step only
after the previous one returned `nil`. -/
def Run (w : World) (st : State) (url : String) : Outcome × State :=
  let parallel := w.NumCPU
  match checkContentLength w st url with
  | ((_, some err), st1) => (Outcome.returned (some err), st1)
  | ((contentLength, none), st1) =>
    match Download w st1 url contentLength parallel with
    | (Outcome.returned none, st2) =>
      match MergeFile st2 parallel contentLength with
      | (err, st3) => (Outcome.returned err, st3)
    | other => other

/-! ## Observations on states -/

/-- The staging directory and everything below it are absent. -/
def StagingGone (st : State) : Prop :=
  (∀ d ∈ st.dirs, inTree "tempdir" d = false) ∧
  (∀ f ∈ st.files, inTree "tempdir" f.1 = false)

instance (st : State) : Decidable (StagingGone st) := by
  unfold StagingGone; infer_instance

/-- The state of an empty working directory before any request. -/
def emptyState : State := { dirs := [], files := [], denied := [], sent := [] }

/-- The two errors by which `checkContentLength` reports missing range
support. -/
def IsRangeSupportError (e : Err) : Prop :=
  e = Err.text "Accept-Range is not bytes" ∨ e = Err.text "it is not content"

/-- The error by which `checkContentLength` reports a missing size. -/
def IsSizeError (e : Err) : Prop :=
  e = Err.text "it does not have Content-Length"

/-! ## Sample servers and states -/

/-- The bytes `a..b` of `data`, cut at the end of `data`. -/
def sliceBytes (data : List Byte) (a b : Nat) : List Byte :=
  (data.drop a).take (b + 1 - a)

/-- The pair `(a, b)` with `a ≤ n`, `b ≤ n + 1` whose `Range` header value
`bytes=a-b` is `hdr`. -/
def findRange (hdr : String) (n : Nat) : Option (Nat × Nat) :=
  ((List.range (n + 1)).flatMap
      (fun a => (List.range (n + 2)).map (fun b => (a, b)))).find?
    (fun ab => decide (rangeHeader (Int.ofNat ab.1) (Int.ofNat ab.2) = hdr))

/-- A server holding `data` that supports byte ranges: `HEAD` answers with
`Accept-Ranges: bytes` and the length of `data`; `GET` with `Range: bytes=a-b`
answers 206 with the requested bytes of `data`, and 416 for any other range
value.  The client machine has `numCPU` processors. -/
def rangeServer (data : List Byte) (numCPU : Int) : World :=
  { NumCPU := numCPU,
    NewRequest := fun _ _ => none,
    Do := fun req =>
      if req.Method = "HEAD" then
        .ok { StatusCode := 200, Header := [("Accept-Ranges", ["bytes"])],
              ContentLength := Int.ofNat data.length, Body := [], BodyErr := none }
      else
        match findRange (req.Header.Get "Range") data.length with
        | some (a, b) =>
          .ok { StatusCode := 206, Header := [], ContentLength := -1,
                Body := sliceBytes data a b, BodyErr := none }
        | none =>
          .ok { StatusCode := 416, Header := [], ContentLength := -1,
                Body := [], BodyErr := none } }

/-- A server that announces `length` bytes with range support and answers
every `GET` with the status `status` and the body `body`, whatever the range
asked for. -/
def fixedServer (length status : Int) (body : List Byte) (numCPU : Int) : World :=
  { NumCPU := numCPU,
    NewRequest := fun _ _ => none,
    Do := fun req =>
      if req.Method = "HEAD" then
        .ok { StatusCode := 200, Header := [("Accept-Ranges", ["bytes"])],
              ContentLength := length, Body := [], BodyErr := none }
      else
        .ok { StatusCode := status, Header := [], ContentLength := -1,
              Body := body, BodyErr := none } }

/-- The answer of `rangeServer data numCPU` to a `HEAD` request. -/
def headAnswer (data : List Byte) : Response :=
  { StatusCode := 200, Header := [("Accept-Ranges", ["bytes"])],
    ContentLength := Int.ofNat data.length, Body := [], BodyErr := none }

/-- Ten bytes to download. -/
def tenBytes : List Byte := [10, 11, 12, 13, 14, 15, 16, 17, 18, 19]

/-- The working directory after `Download` created the staging directory and
the one staging file of a single-chunk download. -/
def stagedState : State :=
  { dirs := ["tempdir"], files := [("tempdir/tempfile.1.0", [])], denied := [],
    sent := [] }

/-- A working directory with two filled staging files of a two-chunk
download. -/
def filledState : State :=
  { dirs := ["tempdir"],
    files := [("tempdir/tempfile.2.0", [1, 2]), ("tempdir/tempfile.2.1", [3])],
    denied := [], sent := [] }

/-- The contents of the staging files of `filledState`, by index. -/
def filledContents (i : Int) : List Byte :=
  if i = 0 then [1, 2] else if i = 1 then [3] else []

/-! ## Arithmetic lemmas -/

theorem wrapInt_of_InInt {x : Int} (h : InInt x) : wrapInt x = x := by
  unfold wrapInt; unfold InInt at h; omega

theorem wrapInt_of_bounds {x : Int} (h1 : -(2 ^ 63) ≤ x) (h2 : x < 2 ^ 63) :
    wrapInt x = x := wrapInt_of_InInt ⟨h1, h2⟩

theorem InInt_wrapInt (x : Int) : InInt (wrapInt x) := by
  unfold wrapInt InInt; omega

/-- For a non-negative dividend and a positive divisor Go's quotient is the
floor quotient. -/
theorem goDiv_eq_ediv {a b : Int} (ha : 0 ≤ a) (ha2 : a < 2 ^ 63) (hb : 1 ≤ b) :
    goDiv a b = a / b := by
  unfold goDiv
  rw [Int.tdiv_eq_ediv ha (by omega)]
  have h0 : 0 ≤ a / b := Int.ediv_nonneg ha (by omega)
  have h1 : a / b ≤ a := Int.ediv_le_self b ha
  exact wrapInt_of_bounds (by omega) (by omega)

theorem split_mul_le (L : Int) {P : Int} (hP : 1 ≤ P) : L / P * P ≤ L :=
  Int.ediv_mul_le L (by omega)

theorem split_nonneg {L P : Int} (hL : 0 ≤ L) (hP : 1 ≤ P) : 0 ≤ L / P :=
  Int.ediv_nonneg hL (by omega)

/-- The product `split * i` for a loop index `i` stays between `0` and
`L - split`. -/
theorem split_mul_index_bounds {L P i : Int} (hL : 0 ≤ L) (hP : 1 ≤ P)
    (hi0 : 0 ≤ i) (hi : i < P) :
    0 ≤ L / P * i ∧ L / P * i + L / P ≤ L := by
  have hs := split_nonneg hL hP
  have hm := split_mul_le L hP
  refine ⟨Int.mul_nonneg hs hi0, ?_⟩
  have h1 : L / P * (i + 1) ≤ L / P * P :=
    Int.mul_le_mul_of_nonneg_left (by omega) hs
  have h2 : L / P * (i + 1) = L / P * i + L / P := by ring
  omega

/-- The fields of a non-final planned range, without wrap-around. -/
theorem MakeRange_inner {L P i : Int} (hL0 : 0 ≤ L) (hL : L < 2 ^ 63)
    (hP : 1 ≤ P) (hP2 : P < 2 ^ 63) (hi0 : 0 ≤ i) (hi : i < P - 1) :
    MakeRange i (goDiv L P) P L =
      { low := L / P * i, high := L / P * i + L / P - 1, number := i } := by
  have hb := split_mul_index_bounds hL0 hP hi0 (by omega : i < P)
  have hs := split_nonneg hL0 hP
  have hPr : goSub P 1 = P - 1 := wrapInt_of_bounds (by omega) (by omega)
  have hlow : goMul (L / P) i = L / P * i :=
    wrapInt_of_bounds (by omega) (by omega)
  have hadd : goAdd (L / P * i) (L / P) = L / P * i + L / P :=
    wrapInt_of_bounds (by omega) (by omega)
  have hsub : goSub (L / P * i + L / P) 1 = L / P * i + L / P - 1 :=
    wrapInt_of_bounds (by omega) (by omega)
  have hne : i ≠ P - 1 := by omega
  simp only [MakeRange, goDiv_eq_ediv hL0 hL hP, hPr, hlow, hadd, hsub, if_neg hne]

/-- The fields of the final planned range, without wrap-around. -/
theorem MakeRange_last {L P : Int} (hL0 : 0 ≤ L) (hL : L < 2 ^ 63)
    (hP : 1 ≤ P) (hP2 : P < 2 ^ 63) :
    MakeRange (P - 1) (goDiv L P) P L =
      { low := L / P * (P - 1), high := L, number := P - 1 } := by
  have hb := split_mul_index_bounds hL0 hP (by omega : 0 ≤ P - 1) (by omega : P - 1 < P)
  have hs := split_nonneg hL0 hP
  have hPr : goSub P 1 = P - 1 := wrapInt_of_bounds (by omega) (by omega)
  have hlow : goMul (L / P) (P - 1) = L / P * (P - 1) :=
    wrapInt_of_bounds (by omega) (by omega)
  simp only [MakeRange, goDiv_eq_ediv hL0 hL hP, hPr, hlow, if_true]

/-! ## Range planning -/

/-- With at least as many bytes as chunks the chunk size is at least one. -/
theorem split_pos {L P : Int} (hP : 1 ≤ P) (hPL : P ≤ L) : 1 ≤ L / P :=
  (Int.le_ediv_iff_mul_le (by omega)).2 (by omega)

/-- The low end of every planned range, final or not, is `split * i`. -/
theorem MakeRange_low {L P i : Int} (hL0 : 0 ≤ L) (hL : L < 2 ^ 63)
    (hP : 1 ≤ P) (hP2 : P < 2 ^ 63) (hi0 : 0 ≤ i) (hi : i < P) :
    (MakeRange i (goDiv L P) P L).low = L / P * i := by
  by_cases hlast : i = P - 1
  · subst hlast; rw [MakeRange_last hL0 hL hP hP2]
  · rw [MakeRange_inner hL0 hL hP hP2 hi0 (by omega)]

/-- Claim C9.  For every `contentLength`, every `split` and every
`parallel ≥ 1`, the range `MakeRange(parallel-1, split, parallel,
contentLength)` has `high` equal to `contentLength` itself (not
`contentLength - 1`), `low` equal to the Go product `split * (parallel-1)`,
which is the mathematical product whenever that fits an `int`, and `number`
equal to `parallel-1`. -/
theorem MakeRange_final_boundary (contentLength split parallel : Int)
    (hp : 1 ≤ parallel) (hpi : InInt parallel) :
    (MakeRange (parallel - 1) split parallel contentLength).high = contentLength ∧
    (MakeRange (parallel - 1) split parallel contentLength).low
      = goMul split (parallel - 1) ∧
    (InInt (split * (parallel - 1)) →
      (MakeRange (parallel - 1) split parallel contentLength).low
        = split * (parallel - 1)) ∧
    (MakeRange (parallel - 1) split parallel contentLength).number = parallel - 1 := by
  have hPr : goSub parallel 1 = parallel - 1 :=
    wrapInt_of_bounds (by unfold InInt at hpi; omega) (by unfold InInt at hpi; omega)
  refine ⟨?_, rfl, ?_, rfl⟩
  · simp only [MakeRange, hPr, if_true]
  · intro h
    exact wrapInt_of_InInt h

/-- The final range of a three-chunk plan over ten bytes, with `split = 3`. -/
theorem MakeRange_final_boundary_witness :
    (MakeRange (3 - 1) 3 3 10).high = 10 ∧
    (MakeRange (3 - 1) 3 3 10).low = goMul 3 (3 - 1) ∧
    (InInt (3 * (3 - 1)) → (MakeRange (3 - 1) 3 3 10).low = 3 * (3 - 1)) ∧
    (MakeRange (3 - 1) 3 3 10).number = 3 - 1 :=
  MakeRange_final_boundary 10 3 3 (by decide) (by decide)

/-- Claim C10.  For `1 ≤ P ≤ L` and `split = L / P`, the ranges
`r_i = MakeRange(i, split, P, L)` with `0 ≤ i < P` satisfy
`0 ≤ r_i.low ≤ r_i.high` and `r_i.number = i`, the first one starts at `0`,
and each later one starts right after its predecessor ends. -/
theorem plannedRanges_chain (L P : Int) (hP : 1 ≤ P) (hPL : P ≤ L) (hL : InInt L) :
    (∀ i, 0 ≤ i → i < P →
      0 ≤ (MakeRange i (goDiv L P) P L).low ∧
      (MakeRange i (goDiv L P) P L).low ≤ (MakeRange i (goDiv L P) P L).high ∧
      (MakeRange i (goDiv L P) P L).number = i) ∧
    (MakeRange 0 (goDiv L P) P L).low = 0 ∧
    (∀ i, 1 ≤ i → i < P →
      (MakeRange i (goDiv L P) P L).low
        = (MakeRange (i - 1) (goDiv L P) P L).high + 1) := by
  have hL0 : 0 ≤ L := by omega
  have hL2 : L < 2 ^ 63 := hL.2
  have hP2 : P < 2 ^ 63 := by omega
  have hs := split_pos hP hPL
  refine ⟨?_, ?_, ?_⟩
  · intro i hi0 hi
    have hb := split_mul_index_bounds hL0 hP hi0 hi
    by_cases hlast : i = P - 1
    · subst hlast
      rw [MakeRange_last hL0 hL2 hP hP2]
      exact ⟨hb.1, by show L / P * (P - 1) ≤ L; omega, rfl⟩
    · rw [MakeRange_inner hL0 hL2 hP hP2 hi0 (by omega)]
      exact ⟨hb.1, by show L / P * i ≤ L / P * i + L / P - 1; omega, rfl⟩
  · rw [MakeRange_low hL0 hL2 hP hP2 (le_refl 0) (by omega)]
    ring
  · intro i hi1 hi
    rw [MakeRange_low hL0 hL2 hP hP2 (by omega) hi,
      MakeRange_inner hL0 hL2 hP hP2 (by omega : 0 ≤ i - 1) (by omega)]
    show L / P * i = L / P * (i - 1) + L / P - 1 + 1
    ring

/-- The chain of the three-chunk plan over ten bytes. -/
theorem plannedRanges_chain_witness :
    (∀ i, 0 ≤ i → i < 3 →
      0 ≤ (MakeRange i (goDiv 10 3) 3 10).low ∧
      (MakeRange i (goDiv 10 3) 3 10).low ≤ (MakeRange i (goDiv 10 3) 3 10).high ∧
      (MakeRange i (goDiv 10 3) 3 10).number = i) ∧
    (MakeRange 0 (goDiv 10 3) 3 10).low = 0 ∧
    (∀ i, 1 ≤ i → i < 3 →
      (MakeRange i (goDiv 10 3) 3 10).low
        = (MakeRange (i - 1) (goDiv 10 3) 3 10).high + 1) :=
  plannedRanges_chain 10 3 (by decide) (by decide) (by decide)

/-- Claim C8.  For `L ≥ 1` and `P ≥ 1` with `L mod P ≠ 0` and
`chunkSize = L / P`, every range `MakeRange(i, chunkSize, P, L)` with
`0 ≤ i < P-1` has length `high - low + 1 = chunkSize`, and the last range
`MakeRange(P-1, chunkSize, P, L)` has length strictly greater than
`chunkSize - 1`. -/
theorem last_range_absorbs (L P : Int) (hL1 : 1 ≤ L) (hL : InInt L)
    (hP1 : 1 ≤ P) (hP : InInt P) (hmod : L % P ≠ 0) :
    (∀ i, 0 ≤ i → i < P - 1 →
      (MakeRange i (goDiv L P) P L).length = goDiv L P) ∧
    (MakeRange (P - 1) (goDiv L P) P L).length > goDiv L P - 1 := by
  have hL0 : 0 ≤ L := by omega
  have hL2 : L < 2 ^ 63 := hL.2
  have hP2 : P < 2 ^ 63 := hP.2
  constructor
  · intro i hi0 hi
    rw [MakeRange_inner hL0 hL2 hP1 hP2 hi0 hi, goDiv_eq_ediv hL0 hL2 hP1]
    show L / P * i + L / P - 1 - L / P * i + 1 = L / P
    ring
  · have hb := split_mul_index_bounds hL0 hP1 (by omega : 0 ≤ P - 1) (by omega : P - 1 < P)
    rw [MakeRange_last hL0 hL2 hP1 hP2, goDiv_eq_ediv hL0 hL2 hP1]
    show L - L / P * (P - 1) + 1 > L / P - 1
    omega

/-- The lengths in the three-chunk plan over ten bytes, where `10 mod 3 = 1`. -/
theorem last_range_absorbs_witness :
    (∀ i, 0 ≤ i → i < 3 - 1 →
      (MakeRange i (goDiv 10 3) 3 10).length = goDiv 10 3) ∧
    (MakeRange (3 - 1) (goDiv 10 3) 3 10).length > goDiv 10 3 - 1 :=
  last_range_absorbs 10 3 (by decide) (by decide) (by decide) (by decide) (by decide)

theorem offsetsFrom_add (a : Int) (m k : Nat) :
    offsetsFrom a (m + k) = offsetsFrom a m ++ offsetsFrom (a + (m : Int)) k := by
  unfold offsetsFrom
  rw [List.range_add, List.map_append, List.map_map]
  congr 1
  apply List.map_congr_left
  intro x _
  simp only [Function.comp, Int.ofNat_eq_coe]
  push_cast
  omega

/-- The ranges planned before the final one cover the offsets from `0` up to
the start of the next range, in order and without repetition. -/
theorem plannedRanges_inner_cover (L P : Int) (hL0 : 0 ≤ L) (hL : L < 2 ^ 63)
    (hP : 1 ≤ P) (hP2 : P < 2 ^ 63) :
    ∀ m : Nat, (m : Int) ≤ P - 1 →
      ((List.range m).map Int.ofNat).flatMap
          (fun i => (MakeRange i (goDiv L P) P L).offsets)
        = offsetsFrom 0 ((L / P).toNat * m) := by
  have hs := split_nonneg hL0 hP
  have hcast : (((L / P).toNat : Nat) : Int) = L / P := Int.toNat_of_nonneg hs
  intro m
  induction m with
  | zero => intro _; rfl
  | succ m ih =>
    intro hm
    have hm2 : (m : Int) < P - 1 := by push_cast at hm; omega
    rw [List.range_succ, List.map_append, List.flatMap_append, ih (by omega)]
    simp only [List.map_cons, List.map_nil, List.flatMap_cons, List.flatMap_nil,
      List.append_nil, Int.ofNat_eq_coe]
    rw [MakeRange_inner hL0 hL hP hP2 (Int.ofNat_nonneg m) hm2]
    have hlen : (L / P * (m : Int) + L / P - 1 - L / P * (m : Int) + 1).toNat
        = (L / P).toNat := by
      congr 1; ring
    simp only [Range.offsets, hlen]
    rw [Nat.mul_succ, offsetsFrom_add]
    congr 2
    push_cast
    rw [hcast]
    ring

/-- What the planned ranges cover, for every `L ≥ 1` and `P ≥ 1`: there are
exactly `P` ranges, and their offsets, range after range, are `0, 1, ..., L`
with no gap and no repetition.  This is one offset more than the resource
`[0, L-1]` has. -/
theorem plannedRanges_cover (L P : Int) (hL1 : 1 ≤ L) (hL : InInt L)
    (hP1 : 1 ≤ P) (hP : InInt P) :
    (plannedRanges L P).length = P.toNat ∧
    (plannedRanges L P).flatMap Range.offsets = resourceOffsets (L + 1) := by
  have hL0 : 0 ≤ L := by omega
  have hs := split_nonneg hL0 hP1
  have hcast : (((L / P).toNat : Nat) : Int) = L / P := Int.toNat_of_nonneg hs
  constructor
  · simp [plannedRanges, loopIndices]
  · obtain ⟨n, hn⟩ : ∃ n : Nat, P.toNat = n + 1 := ⟨P.toNat - 1, by omega⟩
    have hnP : (n : Int) = P - 1 := by omega
    have hb := split_mul_index_bounds hL0 hP1 (by omega : 0 ≤ P - 1) (by omega : P - 1 < P)
    unfold plannedRanges loopIndices
    rw [List.flatMap_map, hn, List.range_succ, List.map_append, List.flatMap_append]
    have hinner := plannedRanges_inner_cover L P hL0 hL.2 hP1 hP.2 n (by omega)
    rw [hinner]
    simp only [List.map_cons, List.map_nil, List.flatMap_cons, List.flatMap_nil,
      List.append_nil, Int.ofNat_eq_coe]
    rw [hnP, MakeRange_last hL0 hL.2 hP1 hP.2]
    simp only [Range.offsets, resourceOffsets]
    have hsplit : (L + 1).toNat
        = (L / P).toNat * n + (L - L / P * (P - 1) + 1).toNat := by
      have h1 : (((L / P).toNat * n : Nat) : Int) = L / P * (P - 1) := by
        push_cast; rw [hcast, hnP]
      omega
    rw [hsplit, offsetsFrom_add]
    congr 2
    push_cast
    rw [hcast, hnP]
    ring

/-- Claim C1, evaluated on the code for `L = 10`, `P = 3`.  `Download` plans
the three ranges `[0,2]`, `[3,5]`, `[6,10]`: the last one ends at `L`, not at
`L - 1`, so the offsets covered are `0..10`, one more than the offsets `0..9`
of the resource. -/
theorem plannedRanges_overrun :
    plannedRanges 10 3 =
      [{ low := 0, high := 2, number := 0 }, { low := 3, high := 5, number := 1 },
       { low := 6, high := 10, number := 2 }] ∧
    (plannedRanges 10 3).flatMap Range.offsets = resourceOffsets 11 ∧
    (plannedRanges 10 3).flatMap Range.offsets ≠ resourceOffsets 10 ∧
    (MakeRange (3 - 1) (goDiv 10 3) 3 10).high ≠ 10 - 1 := by
  decide

/-! ## The probe -/

/-- Claim C4.  For every `HEAD` response that is received,
`checkContentLength` returns `(n, nil)` exactly when the `Accept-Ranges`
header equals `bytes` and the content length is at least 1, and then `n` is
that content length; any other header value, the absent header included,
gives a range-support error whatever the size; the header `bytes` with a
content length below 1 (`-1` stands for unknown) gives the size error; and
every error comes with the size 0. -/
theorem checkContentLength_gate (w : World) (st : State) (url : String)
    (res : Response)
    (hreq : w.NewRequest "HEAD" url = none)
    (hdo : w.Do (headRequest url) = .ok res)
    (hcl : InInt res.ContentLength) :
    (∀ n, (checkContentLength w st url).1 = (n, none) ↔
      (res.Header.Get "Accept-Ranges" = "bytes" ∧ 1 ≤ res.ContentLength ∧
        n = res.ContentLength)) ∧
    (res.Header.Get "Accept-Ranges" ≠ "bytes" →
      ∃ e, (checkContentLength w st url).1 = (0, some e) ∧ IsRangeSupportError e) ∧
    (res.Header.Get "Accept-Ranges" = "bytes" → res.ContentLength < 1 →
      ∃ e, (checkContentLength w st url).1 = (0, some e) ∧ IsSizeError e) ∧
    (∀ n e, (checkContentLength w st url).1 = (n, some e) → n = 0) := by
  have hw : wrapInt res.ContentLength = res.ContentLength := wrapInt_of_InInt hcl
  simp only [checkContentLength, hreq, hdo, hw]
  by_cases h1 : res.Header.Get "Accept-Ranges" = ""
  · have hne : res.Header.Get "Accept-Ranges" ≠ "bytes" := by rw [h1]; decide
    simp only [h1, if_true]
    refine ⟨?_, ?_, ?_, ?_⟩
    · intro n; simp [h1]
    · intro _; exact ⟨_, rfl, Or.inl rfl⟩
    · intro h; exact absurd h (by decide)
    · intro n e h; simp only [Prod.mk.injEq] at h; exact h.1.symm
  · by_cases h2 : res.Header.Get "Accept-Ranges" = "bytes"
    · simp only [h2, ne_eq, not_true_eq_false, if_false]
      have h3 : ¬ ("bytes" = "") := by decide
      simp only [h3, if_false]
      by_cases h4 : res.ContentLength < 1
      · simp only [h4, if_true]
        refine ⟨?_, ?_, ?_, ?_⟩
        · intro n; simp; omega
        · intro h; exact h.elim
        · intro _ _; exact ⟨_, rfl, rfl⟩
        · intro n e h; simp only [Prod.mk.injEq] at h; exact h.1.symm
      · simp only [h4, if_false]
        refine ⟨?_, ?_, ?_, ?_⟩
        · intro n
          simp only [Prod.mk.injEq, and_true, true_and]
          constructor
          · intro h; exact ⟨by omega, h.symm⟩
          · intro h; exact h.2.symm
        · intro h; exact h.elim
        · intro _ h; exact h.elim
        · intro n e h; simp at h
    · simp only [h1, h2, ne_eq, not_false_eq_true, if_false, if_true]
      refine ⟨?_, ?_, ?_, ?_⟩
      · intro n; simp [h2]
      · intro _; exact ⟨_, rfl, Or.inr rfl⟩
      · intro h; exact h.elim
      · intro n e h; simp only [Prod.mk.injEq] at h; exact h.1.symm

/-- The probe of a server that holds ten bytes and supports ranges. -/
theorem checkContentLength_gate_witness :
    (∀ n, (checkContentLength (rangeServer tenBytes 3) emptyState "http://host/file").1
        = (n, none) ↔
      ((headAnswer tenBytes).Header.Get "Accept-Ranges" = "bytes" ∧
        1 ≤ (headAnswer tenBytes).ContentLength ∧
        n = (headAnswer tenBytes).ContentLength)) ∧
    (checkContentLength (rangeServer tenBytes 3) emptyState "http://host/file").1
      = (10, none) :=
  ⟨(checkContentLength_gate (rangeServer tenBytes 3) emptyState "http://host/file"
      (headAnswer tenBytes) rfl rfl (by decide)).1, by decide⟩

/-! ## Fetching one range -/

theorem osOpen_handle {st : State} {name : String} {h : Handle}
    (hopen : osOpen st name = .ok h) : h = { name := name, writable := false } := by
  unfold osOpen at hopen
  split at hopen
  · cases hopen
  · split at hopen
    · cases hopen; rfl
    · cases hopen

/-- Copying to a descriptor opened read-only: nothing is stored, and anything
read makes the write fail. -/
theorem ioCopy_readonly (st : State) (name : String) (src : List Byte)
    (srcErr : Option Err) :
    ioCopy st { name := name, writable := false } src srcErr =
      (if src = [] then srcErr
        else some (Err.path "write" name "bad file descriptor"), st) := by
  unfold ioCopy
  by_cases h : src = []
  · simp [h]
  · simp [h, writeFile]

/-- The request log only grows by `Requests`, and no file, directory or
permission is changed by it: its only write goes to the descriptor that
`os.Open` returned. -/
theorem Requests_frame (w : World) (st : State) (r : Range) (url filename : String) :
    (Requests w st r url filename).2.files = st.files ∧
    (Requests w st r url filename).2.dirs = st.dirs ∧
    (Requests w st r url filename).2.denied = st.denied := by
  simp only [Requests]
  split
  · exact ⟨rfl, rfl, rfl⟩
  · split
    · exact ⟨rfl, rfl, rfl⟩
    · split
      · exact ⟨rfl, rfl, rfl⟩
      · split
        · exact ⟨rfl, rfl, rfl⟩
        · rename_i output hopen
          rw [osOpen_handle hopen, ioCopy_readonly]
          exact ⟨rfl, rfl, rfl⟩

/-- A received response with a status other than 206 makes `Requests` return
the error `unexpected status code: s` with the observed code `s`; only the
request log changes. -/
theorem Requests_unexpected_status (w : World) (st : State) (r : Range)
    (url filename : String) (res : Response)
    (hreq : w.NewRequest "GET" url = none)
    (hdo : w.Do (rangeRequest url r) = .ok res)
    (hstatus : res.StatusCode ≠ 206) :
    Requests w st r url filename =
      (some (Err.text ("unexpected status code: " ++ toString res.StatusCode)),
        st.send (rangeRequest url r)) := by
  have h : res.StatusCode ≠ StatusPartialContent := hstatus
  simp only [Requests, hreq, hdo, h, ne_eq, not_false_eq_true, if_true]

/-- A received 206 response with a non-empty body makes `Requests` fail on
its first write whenever the staging file can be opened: the file was opened
with `os.Open`, read-only. -/
theorem Requests_partial_content_nonempty (w : World) (st : State) (r : Range)
    (url filename : String) (res : Response) (h : Handle)
    (hreq : w.NewRequest "GET" url = none)
    (hdo : w.Do (rangeRequest url r) = .ok res)
    (hstatus : res.StatusCode = 206) (hbody : res.Body ≠ [])
    (hopen : osOpen (st.send (rangeRequest url r)) filename = .ok h) :
    Requests w st r url filename =
      (some (Err.path "write" filename "bad file descriptor"),
        st.send (rangeRequest url r)) := by
  have hs : ¬ (res.StatusCode ≠ StatusPartialContent) := by
    simp [hstatus, StatusPartialContent]
  simp only [Requests, hreq, hdo, hs, if_false, hopen]
  rw [osOpen_handle hopen, ioCopy_readonly]
  simp [hbody]

/-- Claim C7, evaluated on the code.  The staging file of a one-chunk
download of ten bytes exists and is empty; the server answers the range
request with 206 and the ten bytes.  `Requests` returns a write error instead
of `nil`, and the staging file still holds no byte. -/
theorem Requests_partial_content_not_stored :
    ((rangeServer tenBytes 1).Do
        (rangeRequest "http://host/file" (MakeRange 0 10 1 10))).toOption =
      some { StatusCode := 206, Header := [], ContentLength := -1,
             Body := tenBytes, BodyErr := none } ∧
    (Requests (rangeServer tenBytes 1) stagedState (MakeRange 0 10 1 10)
        "http://host/file" "tempdir/tempfile.1.0").1 =
      some (Err.path "write" "tempdir/tempfile.1.0" "bad file descriptor") ∧
    lookupFile (Requests (rangeServer tenBytes 1) stagedState (MakeRange 0 10 1 10)
        "http://host/file" "tempdir/tempfile.1.0").2.files "tempdir/tempfile.1.0" =
      some [] := by
  decide

/-! ## The whole pipeline on a sample server -/

/-- Claim C2, evaluated on the code.  The server holds ten bytes and serves
range requests; the machine has three processors.  The probe succeeds with
length 10, the three range requests `bytes=0-2`, `bytes=3-5`, `bytes=6-10` are
sent, and `Run` ends with a write error (that of chunk 0, the fetch tasks
being taken in index order); no output file `paralleldownload` exists
afterwards. -/
theorem Run_roundtrip_fails :
    (checkContentLength (rangeServer tenBytes 3) emptyState "http://host/file").1
      = (10, none) ∧
    (Run (rangeServer tenBytes 3) emptyState "http://host/file").1 =
      Outcome.returned
        (some (Err.path "write" "tempdir/tempfile.3.0" "bad file descriptor")) ∧
    lookupFile (Run (rangeServer tenBytes 3) emptyState "http://host/file").2.files
      "paralleldownload" = none ∧
    ((Run (rangeServer tenBytes 3) emptyState "http://host/file").2.sent.map
        (fun req => req.Header.Get "Range")) =
      ["", "bytes=0-2", "bytes=3-5", "bytes=6-10"] := by
  decide

/-! ## Chunk counts below one -/

theorem loopIndices_of_nonpos {parallel : Int} (h : parallel ≤ 0) :
    loopIndices parallel = [] := by
  unfold loopIndices
  have : parallel.toNat = 0 := by omega
  rw [this]; rfl

/-- Claim C5 as stated fails.  With `parallel = -1`, `Download` returns `nil`
after creating `tempdir`; with `parallel = 0` it creates `tempdir` and then
panics on the division. -/
theorem Download_negative_parallel_returns_nil :
    Download (rangeServer tenBytes 3) emptyState "http://host/file" 10 (-1) =
      (Outcome.returned none,
        { dirs := ["tempdir"], files := [], denied := [], sent := [] }) ∧
    Download (rangeServer tenBytes 3) emptyState "http://host/file" 10 0 =
      (Outcome.panicked "runtime error: integer divide by zero",
        { dirs := ["tempdir"], files := [], denied := [], sent := [] }) := by
  decide

/-- Claim C5, amended.  For every `parallel ≤ 0`, `Download` validates
nothing: it first calls `os.Mkdir("tempdir")` and returns that error when the
call fails; when the directory was created it creates no staging file and
sends no request, and then returns `nil` for `parallel < 0` and panics with
an integer division by zero for `parallel = 0`. -/
theorem Download_nonpositive_parallel (w : World) (st : State) (url : String)
    (contentLength parallel : Int) (hp : parallel ≤ 0) :
    (∀ err, osMkdir st "tempdir" = .error err →
      Download w st url contentLength parallel = (Outcome.returned (some err), st)) ∧
    (∀ st1, osMkdir st "tempdir" = .ok st1 →
      st1 = { st with dirs := st.dirs ++ ["tempdir"] } ∧
      (parallel < 0 →
        Download w st url contentLength parallel = (Outcome.returned none, st1)) ∧
      (parallel = 0 →
        Download w st url contentLength parallel =
          (Outcome.panicked "runtime error: integer divide by zero", st1))) := by
  constructor
  · intro err h
    simp only [Download, h]
  · intro st1 h
    refine ⟨?_, ?_, ?_⟩
    · unfold osMkdir at h
      split at h
      · cases h
      · split at h
        · cases h
        · cases h; rfl
    · intro hneg
      have hne : parallel ≠ 0 := by omega
      simp only [Download, h, hne, if_false, loopIndices_of_nonpos hp, DownloadLoop]
    · intro h0
      simp only [Download, h, h0, if_true]

/-- The call `Download(url, 10, -2, ctx)` in an empty working directory. -/
theorem Download_nonpositive_parallel_witness :
    Download (rangeServer tenBytes 3) emptyState "http://host/file" 10 (-2) =
      (Outcome.returned none, { emptyState with dirs := emptyState.dirs ++ ["tempdir"] }) :=
  ((Download_nonpositive_parallel (rangeServer tenBytes 3) emptyState
      "http://host/file" 10 (-2) (by decide)).2
    { emptyState with dirs := emptyState.dirs ++ ["tempdir"] } rfl).2.1 (by decide)

/-! ## Files: lookup, store, removal -/

theorem lookupFile_storeFile_same (fs : List (String × List Byte)) (name : String)
    (data : List Byte) : lookupFile (storeFile fs name data) name = some data := by
  induction fs with
  | nil => simp [storeFile, lookupFile]
  | cons kv rest ih =>
    obtain ⟨k, v⟩ := kv
    by_cases h : k = name
    · simp [storeFile, lookupFile, h]
    · simp [storeFile, lookupFile, h, ih]

theorem lookupFile_storeFile_other (fs : List (String × List Byte))
    {name other : String} (data : List Byte) (hne : other ≠ name) :
    lookupFile (storeFile fs name data) other = lookupFile fs other := by
  induction fs with
  | nil =>
    have h : ¬ name = other := fun h => hne h.symm
    simp [storeFile, lookupFile, h]
  | cons kv rest ih =>
    obtain ⟨k, v⟩ := kv
    by_cases h : k = name
    · have h2 : ¬ name = other := fun h => hne h.symm
      simp [storeFile, lookupFile, h, h2]
    · by_cases h3 : k = other
      · subst h3
        simp [storeFile, lookupFile, h]
      · simp [storeFile, lookupFile, h, h3, ih]

/-- Removing a tree keeps the content of every file outside of it. -/
theorem lookupFile_filter_outside (fs : List (String × List Byte))
    {root name : String} (hout : inTree root name = false) :
    lookupFile (fs.filter (fun f => !inTree root f.1)) name = lookupFile fs name := by
  induction fs with
  | nil => rfl
  | cons kv rest ih =>
    obtain ⟨k, v⟩ := kv
    by_cases h : k = name
    · subst h
      simp [List.filter, hout, lookupFile]
    · by_cases hk : inTree root k = true
      · simp [List.filter, hk, lookupFile, h, ih]
      · have hk2 : inTree root k = false := by simpa using hk
        simp [List.filter, hk2, lookupFile, h, ih]

/-- After `os.RemoveAll("tempdir")` succeeded nothing of the staging tree is
left. -/
theorem osRemoveAll_gone {st st1 : State} (h : osRemoveAll st "tempdir" = .ok st1) :
    StagingGone st1 := by
  unfold osRemoveAll at h
  split at h
  · cases h
  · cases h
    constructor
    · intro d hd
      have := (List.mem_filter.1 hd).2
      simpa using this
    · intro f hf
      have := (List.mem_filter.1 hf).2
      simpa using this

theorem osRemoveAll_outside {st st1 : State} {root name : String}
    (h : osRemoveAll st root = .ok st1) (hout : inTree root name = false) :
    lookupFile st1.files name = lookupFile st.files name := by
  unfold osRemoveAll at h
  split at h
  · cases h
  · cases h
    exact lookupFile_filter_outside st.files hout

theorem osCreate_ok {st st1 : State} {name : String} {h : Handle}
    (hc : osCreate st name = .ok (h, st1)) :
    h = { name := name, writable := true } ∧
    st1 = { st with files := storeFile st.files name [] } := by
  unfold osCreate at hc
  split at hc
  · cases hc
  · split at hc
    · cases hc
    · cases hc; exact ⟨rfl, rfl⟩

/-- A staging file name is never the name of the output file. -/
theorem tempfileName_ne_output (a b : Int) : tempfileName a b ≠ "paralleldownload" := by
  intro h
  have h2 := congrArg String.data h
  simp only [tempfileName, String.data_append] at h2
  simp at h2

/-! ## Merging -/

theorem writeFile_frame {st st1 : State} {h : Handle} {data : List Byte}
    (hw : writeFile st h data = .ok st1) :
    st1.dirs = st.dirs ∧ st1.denied = st.denied := by
  unfold writeFile at hw
  split at hw
  · cases hw; exact ⟨rfl, rfl⟩
  · cases hw

theorem ioCopy_frame (st : State) (dst : Handle) (src : List Byte)
    (srcErr : Option Err) :
    (ioCopy st dst src srcErr).2.dirs = st.dirs ∧
    (ioCopy st dst src srcErr).2.denied = st.denied := by
  unfold ioCopy
  split
  · exact ⟨rfl, rfl⟩
  · split
    · exact ⟨rfl, rfl⟩
    · rename_i st1 hw
      exact writeFile_frame hw

/-- The directories and permissions are the same after `MergeLoop`, whether
or not it met an error. -/
theorem MergeLoop_frame (parallel : Int) (fh : Handle) (idx : List Int) :
    ∀ st : State, (MergeLoop parallel fh idx st).2.dirs = st.dirs ∧
      (MergeLoop parallel fh idx st).2.denied = st.denied := by
  induction idx with
  | nil => intro st; exact ⟨rfl, rfl⟩
  | cons i rest ih =>
    intro st
    simp only [MergeLoop]
    split
    · exact ⟨rfl, rfl⟩
    · split
      · exact ⟨rfl, rfl⟩
      · rename_i data _
        have hio := ioCopy_frame st fh data none
        split
        · rename_i err st1 heq
          rw [heq] at hio
          exact hio
        · rename_i st1 heq
          rw [heq] at hio
          have := ih st1
          exact ⟨this.1.trans hio.1, this.2.trans hio.2⟩

/-- The loop of `MergeFile`, when it meets no error, appends the contents of
the staging files to the output file in the order of the indices. -/
theorem MergeLoop_appends (parallel : Int) (c : Int → List Byte) (idx : List Int) :
    ∀ (st : State) (acc : List Byte),
      (∀ i ∈ idx, lookupFile st.files (tempfileName parallel i) = some (c i)) →
      lookupFile st.files "paralleldownload" = some acc →
      (MergeLoop parallel { name := "paralleldownload", writable := true } idx st).1
        = none →
      lookupFile
        (MergeLoop parallel { name := "paralleldownload", writable := true } idx st).2.files
        "paralleldownload" = some (acc ++ idx.flatMap c) := by
  induction idx with
  | nil =>
    intro st acc _ hout _
    simpa [MergeLoop] using hout
  | cons i rest ih =>
    intro st acc hfiles hout hok
    have hci := hfiles i (List.mem_cons_self i rest)
    simp only [MergeLoop] at hok ⊢
    split at hok
    · cases hok
    · rename_i sub hopen
      have hsub := osOpen_handle hopen
      subst hsub
      simp only [readAll, hci] at hok ⊢
      by_cases hempty : c i = []
      · simp only [ioCopy, hempty, if_true] at hok ⊢
        have := ih st acc (fun j hj => hfiles j (List.mem_cons_of_mem i hj)) hout hok
        simpa [List.flatMap_cons, hempty] using this
      · simp only [ioCopy, hempty, if_false, writeFile, if_true, hout, Option.getD_some]
          at hok ⊢
        have hrest : ∀ j ∈ rest,
            lookupFile (storeFile st.files "paralleldownload" (acc ++ c i))
              (tempfileName parallel j) = some (c j) := by
          intro j hj
          rw [lookupFile_storeFile_other _ _ (tempfileName_ne_output parallel j)]
          exact hfiles j (List.mem_cons_of_mem i hj)
        have := ih { st with files := storeFile st.files "paralleldownload" (acc ++ c i) }
          (acc ++ c i) hrest (lookupFile_storeFile_same _ _ _) hok
        simpa [List.flatMap_cons, List.append_assoc] using this

theorem mem_loopIndices {parallel i : Int} (h : i ∈ loopIndices parallel) :
    0 ≤ i ∧ i < parallel := by
  unfold loopIndices at h
  obtain ⟨k, hk, rfl⟩ := List.mem_map.1 h
  have := List.mem_range.1 hk
  constructor
  · exact Int.ofNat_nonneg k
  · show (k : Int) < parallel
    omega

/-- What a `MergeFile` call that returns `nil` went through: the output file
was created, the loop ended without error in some state, and the removal of
`tempdir` from that state succeeded. -/
theorem MergeFile_nil_inv (st : State) (parallel contentLength : Int)
    (hok : (MergeFile st parallel contentLength).1 = none) :
    ∃ st2 st3,
      MergeLoop parallel { name := "paralleldownload", writable := true }
        (loopIndices parallel)
        { st with files := storeFile st.files "paralleldownload" [] } = (none, st2) ∧
      osRemoveAll st2 "tempdir" = .ok st3 ∧
      MergeFile st parallel contentLength = (none, st3) := by
  simp only [MergeFile] at hok ⊢
  cases hc : osCreate st "paralleldownload" with
  | error err => simp [hc] at hok
  | ok p =>
    obtain ⟨fh, st1⟩ := p
    obtain ⟨hfh, hst1⟩ := osCreate_ok hc
    subst hfh; subst hst1
    simp only [hc] at hok ⊢
    cases hm : MergeLoop parallel { name := "paralleldownload", writable := true }
        (loopIndices parallel)
        { st with files := storeFile st.files "paralleldownload" [] } with
    | mk e st2 =>
      cases e with
      | some err => simp [hm] at hok
      | none =>
        simp only [hm] at hok ⊢
        cases hr : osRemoveAll st2 "tempdir" with
        | error err => simp [hr] at hok
        | ok st3 => exact ⟨st2, st3, rfl, hr, rfl⟩

/-- A `MergeFile` call that returns `nil` leaves in the output file the
contents the staging files had, concatenated in the order of the loop, and
leaves nothing of the staging directory. -/
theorem MergeFile_concat (st : State) (P L : Int) (c : Int → List Byte)
    (hfiles : ∀ i ∈ loopIndices P,
      lookupFile st.files (tempfileName P i) = some (c i))
    (hok : (MergeFile st P L).1 = none) :
    lookupFile (MergeFile st P L).2.files "paralleldownload"
      = some ((loopIndices P).flatMap c) ∧
    StagingGone (MergeFile st P L).2 := by
  obtain ⟨st2, st3, hloop, hrm, hres⟩ := MergeFile_nil_inv st P L hok
  have hstaged : ∀ i ∈ loopIndices P,
      lookupFile (storeFile st.files "paralleldownload" [])
        (tempfileName P i) = some (c i) := by
    intro i hi
    rw [lookupFile_storeFile_other _ _ (tempfileName_ne_output P i)]
    exact hfiles i hi
  have happ := MergeLoop_appends P c (loopIndices P)
    { st with files := storeFile st.files "paralleldownload" [] } []
    hstaged (lookupFile_storeFile_same _ _ _) (by rw [hloop])
  rw [hloop] at happ
  rw [hres]
  refine ⟨?_, osRemoveAll_gone hrm⟩
  show lookupFile st3.files "paralleldownload" = _
  rw [osRemoveAll_outside hrm (by decide)]
  simpa using happ

/-- Claim C6.  For `P ≥ 1` and a state in which the staging files
`tempdir/tempfile.P.0 ... tempdir/tempfile.P.(P-1)` hold `c 0 ... c (P-1)`, a
`MergeFile(P, L)` call that returns `nil` leaves the output file
`paralleldownload` with exactly `c 0 ++ c 1 ++ ... ++ c (P-1)`, leaves nothing
of `tempdir`, and the staging name `MergeFile` opens for index `i` is the name
`Download` created for range `i`. -/
theorem MergeFile_ordered (st : State) (P L : Int) (c : Int → List Byte)
    (hP : 1 ≤ P)
    (hfiles : ∀ i, 0 ≤ i → i < P →
      lookupFile st.files (tempfileName P i) = some (c i))
    (hok : (MergeFile st P L).1 = none) :
    lookupFile (MergeFile st P L).2.files "paralleldownload"
      = some ((loopIndices P).flatMap c) ∧
    StagingGone (MergeFile st P L).2 ∧
    (∀ i split, tempfileName P (MakeRange i split P L).number = tempfileName P i) := by
  have h := MergeFile_concat st P L c
    (fun i hi => hfiles i (mem_loopIndices hi).1 (mem_loopIndices hi).2) hok
  exact ⟨h.1, h.2, fun _ _ => rfl⟩

/-- The merge of two staging files holding `[1, 2]` and `[3]`. -/
theorem MergeFile_ordered_witness :
    (MergeFile filledState 2 3).1 = none ∧
    lookupFile (MergeFile filledState 2 3).2.files "paralleldownload" = some [1, 2, 3] ∧
    StagingGone (MergeFile filledState 2 3).2 :=
  ⟨by decide,
   (MergeFile_ordered filledState 2 3 filledContents (by decide)
      (by
        intro i h0 h1
        have h : i = 0 ∨ i = 1 := by omega
        rcases h with h | h <;> subst h <;> decide)
      (by decide)).1,
   (MergeFile_ordered filledState 2 3 filledContents (by decide)
      (by
        intro i h0 h1
        have h : i = 0 ∨ i = 1 := by omega
        rcases h with h | h <;> subst h <;> decide)
      (by decide)).2.1⟩

/-! ## Cleanup of the staging directory -/

theorem osCreate_frame {st st1 : State} {name : String} {h : Handle}
    (hc : osCreate st name = .ok (h, st1)) :
    st1.dirs = st.dirs ∧ st1.denied = st.denied := by
  rw [(osCreate_ok hc).2]
  exact ⟨rfl, rfl⟩

/-- The loop of `Download` never adds or removes a directory. -/
theorem DownloadLoop_frame (w : World) (url : String)
    (split parallel contentLength : Int) (idx : List Int) :
    ∀ (st : State) (grpErr : Option Err),
      (DownloadLoop w url split parallel contentLength idx st grpErr).2.dirs
        = st.dirs := by
  induction idx with
  | nil => intro st grpErr; rfl
  | cons i rest ih =>
    intro st grpErr
    simp only [DownloadLoop]
    split
    · rfl
    · rename_i file st1 hc
      rw [ih, (Requests_frame w st1 _ url file.name).2.1, (osCreate_frame hc).1]

/-- After `Download`, either nothing was touched (the directory could not be
created, and that error is returned) or the staging directory exists. -/
theorem Download_leaves_tempdir (w : World) (st : State) (url : String)
    (contentLength parallel : Int) :
    (∃ err, Download w st url contentLength parallel
      = (Outcome.returned (some err), st)) ∨
    "tempdir" ∈ (Download w st url contentLength parallel).2.dirs := by
  simp only [Download]
  cases hm : osMkdir st "tempdir" with
  | error err => exact Or.inl ⟨err, rfl⟩
  | ok st1 =>
    right
    have hin : "tempdir" ∈ st1.dirs := by
      unfold osMkdir at hm
      split at hm
      · cases hm
      · split at hm
        · cases hm
        · cases hm; simp
    simp only []
    split
    · exact hin
    · rw [DownloadLoop_frame]; exact hin

/-- A `MergeFile` call that returns an error leaves the directories as they
were. -/
theorem MergeFile_error_dirs (st : State) (parallel contentLength : Int) (e : Err)
    (herr : (MergeFile st parallel contentLength).1 = some e) :
    (MergeFile st parallel contentLength).2.dirs = st.dirs := by
  simp only [MergeFile] at herr ⊢
  cases hc : osCreate st "paralleldownload" with
  | error err => rfl
  | ok p =>
    obtain ⟨fh, st1⟩ := p
    have hst1 := (osCreate_frame hc).1
    simp only [hc] at herr ⊢
    have hfr := (MergeLoop_frame parallel fh (loopIndices parallel) st1).1
    cases hm : MergeLoop parallel fh (loopIndices parallel) st1 with
    | mk e2 st2 =>
      rw [hm] at hfr
      cases e2 with
      | some err => exact hfr.trans hst1
      | none =>
        simp only [hm] at herr ⊢
        cases hr : osRemoveAll st2 "tempdir" with
        | error err => exact hfr.trans hst1
        | ok st3 => simp [hr] at herr

theorem checkContentLength_frame (w : World) (st : State) (url : String) :
    (checkContentLength w st url).2.dirs = st.dirs ∧
    (checkContentLength w st url).2.files = st.files := by
  simp only [checkContentLength]
  split
  · exact ⟨rfl, rfl⟩
  · split
    · exact ⟨rfl, rfl⟩
    · split
      · exact ⟨rfl, rfl⟩
      · split
        · exact ⟨rfl, rfl⟩
        · split
          · exact ⟨rfl, rfl⟩
          · exact ⟨rfl, rfl⟩

/-- Once `os.Mkdir("tempdir")` succeeded, `tempdir` exists when `Download`
ends, however it ends; when `os.Mkdir` failed, `Download` returns that error
and has touched nothing. -/
theorem Download_after_mkdir (w : World) (st : State) (url : String)
    (contentLength parallel : Int) :
    (∀ err, osMkdir st "tempdir" = .error err →
      Download w st url contentLength parallel = (Outcome.returned (some err), st)) ∧
    (∀ st1, osMkdir st "tempdir" = .ok st1 →
      "tempdir" ∈ (Download w st url contentLength parallel).2.dirs) := by
  constructor
  · intro err h
    simp only [Download, h]
  · intro st1 h
    rcases Download_leaves_tempdir w st url contentLength parallel with ⟨err, he⟩ | hin
    · simp only [Download, h] at he
      split at he
      · cases he
      · have hfst := congrArg Prod.snd he
        have hd := DownloadLoop_frame w url (goDiv contentLength parallel) parallel
          contentLength (loopIndices parallel) st1 none
        simp only [] at hfst
        rw [hfst] at hd
        have hin : "tempdir" ∈ st1.dirs := by
          unfold osMkdir at h
          split at h
          · cases h
          · split at h
            · cases h
            · cases h; simp
        simp only [Download, h]
        split
        · exact hin
        · rw [DownloadLoop_frame]; exact hin
    · exact hin

/-- A `Run` that returns `nil` leaves nothing of the staging directory
`tempdir`: the last step of a successful `MergeFile` removed it. -/
theorem Run_nil_staging_gone (w : World) (st : State) (url : String)
    (hnil : (Run w st url).1 = Outcome.returned none) :
    StagingGone (Run w st url).2 := by
  simp only [Run] at hnil ⊢
  cases hp : checkContentLength w st url with
  | mk out st1 =>
    obtain ⟨n, perr⟩ := out
    cases perr with
    | some err => simp [hp] at hnil
    | none =>
      simp only [hp] at hnil ⊢
      cases hd : Download w st1 url n w.NumCPU with
      | mk o st2 =>
        cases o with
        | panicked msg => simp [hd] at hnil
        | returned derr =>
          cases derr with
          | some err => simp [hd] at hnil
          | none =>
            simp only [hd] at hnil ⊢
            cases hm : MergeFile st2 w.NumCPU n with
            | mk merr st3 =>
              have hmnil : (MergeFile st2 w.NumCPU n).1 = none := by
                rw [hm] at hnil ⊢
                simpa using hnil
              obtain ⟨s2, s3, _, hrm, hres⟩ := MergeFile_nil_inv st2 w.NumCPU n hmnil
              have h3 : st3 = s3 := congrArg Prod.snd (hm.symm.trans hres)
              show StagingGone st3
              rw [h3]
              exact osRemoveAll_gone hrm

/-- A run that returns `nil`: the server answers 206 with an empty body. -/
theorem Run_nil_staging_gone_witness :
    (Run (fixedServer 1 206 [] 1) emptyState "http://host/file").1
      = Outcome.returned none ∧
    StagingGone (Run (fixedServer 1 206 [] 1) emptyState "http://host/file").2 :=
  ⟨by decide,
   Run_nil_staging_gone (fixedServer 1 206 [] 1) emptyState "http://host/file"
     (by decide)⟩

/-- No failure path of `Run` cleans up.  An error of the probe, and an error
of `os.Mkdir` after a successful probe, is returned with the directories and
files untouched.  Once the probe and `os.Mkdir("tempdir")` succeeded, every
`Run` that does not return `nil` (an error of a staging-file creation, of a
fetch, of the merge, or a panic) ends with `tempdir` still in place. -/
theorem Run_failure_keeps_tempdir (w : World) (st : State) (url : String) :
    (∀ n err, (checkContentLength w st url).1 = (n, some err) →
      Run w st url = (Outcome.returned (some err), (checkContentLength w st url).2)) ∧
    (∀ n err, (checkContentLength w st url).1 = (n, none) →
      osMkdir (checkContentLength w st url).2 "tempdir" = .error err →
      Run w st url = (Outcome.returned (some err), (checkContentLength w st url).2)) ∧
    (∀ n st1, (checkContentLength w st url).1 = (n, none) →
      osMkdir (checkContentLength w st url).2 "tempdir" = .ok st1 →
      (Run w st url).1 ≠ Outcome.returned none →
      "tempdir" ∈ (Run w st url).2.dirs) := by
  cases hp : checkContentLength w st url with
  | mk out st0 =>
    obtain ⟨m, perr⟩ := out
    refine ⟨?_, ?_, ?_⟩
    · intro n err h
      simp only [Prod.mk.injEq] at h
      obtain ⟨_, h2⟩ := h
      subst h2
      simp only [Run, hp]
    · intro n err h hmk
      simp only [Prod.mk.injEq] at h
      obtain ⟨h1, h2⟩ := h
      subst h1; subst h2
      have hd := (Download_after_mkdir w st0 url m w.NumCPU).1 err hmk
      simp only [Run, hp, hd]
    · intro n st1 h hmk hne
      simp only [Prod.mk.injEq] at h
      obtain ⟨h1, h2⟩ := h
      subst h1; subst h2
      have hin := (Download_after_mkdir w st0 url m w.NumCPU).2 st1 hmk
      simp only [Run, hp] at hne ⊢
      cases hd : Download w st0 url m w.NumCPU with
      | mk o st2 =>
        rw [hd] at hin
        cases o with
        | panicked msg => exact hin
        | returned derr =>
          cases derr with
          | some err => exact hin
          | none =>
            simp only [hd] at hne ⊢
            cases hm : MergeFile st2 w.NumCPU m with
            | mk merr st3 =>
              simp only [hm] at hne ⊢
              cases merr with
              | none => exact absurd rfl hne
              | some e =>
                have hdirs := MergeFile_error_dirs st2 w.NumCPU m e (by rw [hm])
                rw [hm] at hdirs
                show "tempdir" ∈ st3.dirs
                rw [show st3.dirs = st2.dirs from hdirs]
                exact hin

/-- Claim C3, evaluated on the code.  The working directory is empty, the
machine has two processors, and the server announces ten bytes with range
support but answers every `GET` with 200 and the whole resource.  `Run`
returns the status error of `Requests`, and the staging directory `tempdir`
with its two staging files is still there when it returns, where the claim
says that nothing of it is left.  The leftover makes the next `Run` in the
same directory fail at `os.Mkdir`, even against a server that serves
ranges. -/
theorem Run_error_leaves_staging :
    (Run (fixedServer 10 200 tenBytes 2) emptyState "http://host/file").1 =
      Outcome.returned (some (Err.text "unexpected status code: 200")) ∧
    (Run (fixedServer 10 200 tenBytes 2) emptyState "http://host/file").2.dirs =
      ["tempdir"] ∧
    (Run (fixedServer 10 200 tenBytes 2) emptyState "http://host/file").2.files =
      [("tempdir/tempfile.2.0", []), ("tempdir/tempfile.2.1", [])] ∧
    ¬ StagingGone (Run (fixedServer 10 200 tenBytes 2) emptyState "http://host/file").2 ∧
    (Run (rangeServer tenBytes 2)
        (Run (fixedServer 10 200 tenBytes 2) emptyState "http://host/file").2
        "http://host/file").1 =
      Outcome.returned (some (Err.path "mkdir" "tempdir" "file exists")) := by
  decide

/-! ## No byte reaches the output -/

/-- When the loop of `Download` ends with `nil`, every staging file it
created is empty, and every file that was empty before is empty still:
`Requests` stores nothing. -/
theorem DownloadLoop_stages_empty (w : World) (url : String)
    (split parallel contentLength : Int) (idx : List Int) :
    ∀ (st : State) (grpErr : Option Err),
      (DownloadLoop w url split parallel contentLength idx st grpErr).1
        = Outcome.returned none →
      (∀ name, lookupFile st.files name = some [] →
        lookupFile (DownloadLoop w url split parallel contentLength idx st grpErr).2.files
          name = some []) ∧
      (∀ i ∈ idx,
        lookupFile (DownloadLoop w url split parallel contentLength idx st grpErr).2.files
          (tempfileName parallel i) = some []) := by
  induction idx with
  | nil =>
    intro st grpErr _
    exact ⟨fun _ h => h, fun i hi => by cases hi⟩
  | cons i rest ih =>
    intro st grpErr hnil
    have hnum : (MakeRange i split parallel contentLength).number = i := rfl
    simp only [DownloadLoop, hnum] at hnil ⊢
    cases hc : osCreate st (tempfileName parallel i) with
    | error err => simp [hc] at hnil
    | ok p =>
      obtain ⟨file, st1⟩ := p
      obtain ⟨hfile, hst1⟩ := osCreate_ok hc
      simp only [hc] at hnil ⊢
      have hfr := (Requests_frame w st1 (MakeRange i split parallel contentLength)
        url file.name).1
      have hrec := ih _ _ hnil
      have hkeep : ∀ name, lookupFile st.files name = some [] →
          lookupFile (Requests w st1 (MakeRange i split parallel contentLength)
            url file.name).2.files name = some [] := by
        intro name hname
        rw [hfr, hst1]
        show lookupFile (storeFile st.files (tempfileName parallel i) []) name = some []
        by_cases hsame : name = tempfileName parallel i
        · rw [hsame]; exact lookupFile_storeFile_same _ _ _
        · rw [lookupFile_storeFile_other _ _ hsame]; exact hname
      have hnew : lookupFile (Requests w st1 (MakeRange i split parallel contentLength)
            url file.name).2.files (tempfileName parallel i) = some [] := by
        rw [hfr, hst1]
        exact lookupFile_storeFile_same _ _ _
      refine ⟨fun name hname => hrec.1 name (hkeep name hname), ?_⟩
      intro j hj
      rcases List.mem_cons.1 hj with hji | hjr
      · rw [hji]; exact hrec.1 _ hnew
      · exact hrec.2 j hjr

/-- When `Download` returns `nil`, every staging file of the plan exists and
is empty. -/
theorem Download_nil_stages_empty (w : World) (st : State) (url : String)
    (contentLength parallel : Int)
    (hnil : (Download w st url contentLength parallel).1 = Outcome.returned none) :
    ∀ i ∈ loopIndices parallel,
      lookupFile (Download w st url contentLength parallel).2.files
        (tempfileName parallel i) = some [] := by
  simp only [Download] at hnil ⊢
  cases hm : osMkdir st "tempdir" with
  | error err => simp [hm] at hnil
  | ok st1 =>
    simp only [hm] at hnil ⊢
    by_cases h0 : parallel = 0
    · simp [h0] at hnil
    · simp only [h0, if_false] at hnil ⊢
      exact (DownloadLoop_stages_empty w url _ parallel contentLength _ st1 none hnil).2

/-- Whatever the server holds and answers, a `Run` that returns `nil` leaves
an empty output file: no byte of any response body is ever stored.  So for no
resource of length `L ≥ 1` does the pipeline reproduce the resource. -/
theorem Run_nil_output_empty (w : World) (st : State) (url : String)
    (hnil : (Run w st url).1 = Outcome.returned none) :
    lookupFile (Run w st url).2.files "paralleldownload" = some [] := by
  simp only [Run] at hnil ⊢
  cases hp : checkContentLength w st url with
  | mk out st1 =>
    obtain ⟨n, perr⟩ := out
    cases perr with
    | some err => simp [hp] at hnil
    | none =>
      simp only [hp] at hnil ⊢
      have hstages := Download_nil_stages_empty w st1 url n w.NumCPU
      cases hd : Download w st1 url n w.NumCPU with
      | mk o st2 =>
        rw [hd] at hstages
        cases o with
        | panicked msg => simp [hd] at hnil
        | returned derr =>
          cases derr with
          | some err => simp [hd] at hnil
          | none =>
            simp only [hd] at hnil ⊢
            have hmnil : (MergeFile st2 w.NumCPU n).1 = none := by
              cases hm : MergeFile st2 w.NumCPU n with
              | mk merr st3 =>
                rw [hm] at hnil
                simpa using hnil
            have hcat := (MergeFile_concat st2 w.NumCPU n (fun _ => [])
              (hstages rfl) hmnil).1
            have hempty : ∀ l : List Int, l.flatMap (fun _ => ([] : List Byte)) = [] := by
              intro l
              induction l with
              | nil => rfl
              | cons a t iht => simp [List.flatMap_cons, iht]
            rw [hempty] at hcat
            exact hcat

end download
